import Mathlib

/-!
Verification development for `voltron.py`, a debugger-state broadcaster.

The server half keeps a global list `clients` of accepted connections and a
global `Queue.Queue` of events.  The GDB stop handler enqueues `update`
events; `ServerThread.run` drains the queue and, for each drained event and
each client, evaluates

  `event['msg_type'] == 'update' and event['update_type'] in client.registration['for_types']`

and calls `client.send_event(event)` when it holds (voltron.py lines 294-298).
`ClientHandler.handle_read` (lines 232-244) decodes inbound chunks and
`handle_register` (lines 246-248) stores the registration message.

The embedding models Python values as the inductive `Value`, Python
exceptions as `PyErr`, and each fallible code path as an `Except PyErr`
computation.  Socket behaviour that lives in the `asyncore` standard library
(`dispatcher.send`) is modelled by `SendOutcome`: a disconnect-class
`socket.error` is absorbed by `asyncore.dispatcher.send` (it calls
`handle_close` and returns 0), `EWOULDBLOCK` returns 0, and any other
`socket.error` is re-raised to the caller.
-/

/-- Python exception classes that the modelled code paths can raise. -/
inductive PyErr where
  /-- reading a missing attribute, e.g. `client.registration` before any register message -/
  | attributeError
  /-- subscripting a mapping with a key it does not hold -/
  | keyError
  /-- an operation applied to a value of the wrong type, e.g. `'a' + 5` -/
  | typeError
  /-- UnboundLocalError: a local variable referenced before assignment -/
  | unboundLocal
  /-- a `socket.error` that `asyncore.dispatcher.send` re-raises -/
  | socketError
deriving DecidableEq

/-- The universe of structures carried on the wire: nested string-keyed
mappings, sequences, strings, integers and raw byte blobs (voltron.py
pickles Python dicts such as
`{'msg_type': 'update', 'update_type': 'register', 'data': regs}`). -/
inductive Value where
  | int : Int → Value
  | str : String → Value
  | blob : List Nat → Value
  | list : List Value → Value
  | dict : List (String × Value) → Value

mutual

/-- Structural decidable equality for `Value` (Python `==` on the shapes the
program uses; the derive handler does not support this nested inductive). -/
def Value.decEq : (a b : Value) → Decidable (a = b)
  | .int a, .int b =>
    match inferInstanceAs (Decidable (a = b)) with
    | isTrue h => isTrue (by rw [h])
    | isFalse h => isFalse (by intro hh; injection hh with e; exact h e)
  | .int _, .str _ => isFalse (fun h => Value.noConfusion h)
  | .int _, .blob _ => isFalse (fun h => Value.noConfusion h)
  | .int _, .list _ => isFalse (fun h => Value.noConfusion h)
  | .int _, .dict _ => isFalse (fun h => Value.noConfusion h)
  | .str a, .str b =>
    match inferInstanceAs (Decidable (a = b)) with
    | isTrue h => isTrue (by rw [h])
    | isFalse h => isFalse (by intro hh; injection hh with e; exact h e)
  | .str _, .int _ => isFalse (fun h => Value.noConfusion h)
  | .str _, .blob _ => isFalse (fun h => Value.noConfusion h)
  | .str _, .list _ => isFalse (fun h => Value.noConfusion h)
  | .str _, .dict _ => isFalse (fun h => Value.noConfusion h)
  | .blob a, .blob b =>
    match inferInstanceAs (Decidable (a = b)) with
    | isTrue h => isTrue (by rw [h])
    | isFalse h => isFalse (by intro hh; injection hh with e; exact h e)
  | .blob _, .int _ => isFalse (fun h => Value.noConfusion h)
  | .blob _, .str _ => isFalse (fun h => Value.noConfusion h)
  | .blob _, .list _ => isFalse (fun h => Value.noConfusion h)
  | .blob _, .dict _ => isFalse (fun h => Value.noConfusion h)
  | .list as, .list bs =>
    match Value.decEqList as bs with
    | isTrue h => isTrue (by rw [h])
    | isFalse h => isFalse (by intro hh; injection hh with e; exact h e)
  | .list _, .int _ => isFalse (fun h => Value.noConfusion h)
  | .list _, .str _ => isFalse (fun h => Value.noConfusion h)
  | .list _, .blob _ => isFalse (fun h => Value.noConfusion h)
  | .list _, .dict _ => isFalse (fun h => Value.noConfusion h)
  | .dict as, .dict bs =>
    match Value.decEqPairs as bs with
    | isTrue h => isTrue (by rw [h])
    | isFalse h => isFalse (by intro hh; injection hh with e; exact h e)
  | .dict _, .int _ => isFalse (fun h => Value.noConfusion h)
  | .dict _, .str _ => isFalse (fun h => Value.noConfusion h)
  | .dict _, .blob _ => isFalse (fun h => Value.noConfusion h)
  | .dict _, .list _ => isFalse (fun h => Value.noConfusion h)

/-- Decidable equality for lists of `Value`. -/
def Value.decEqList : (as bs : List Value) → Decidable (as = bs)
  | [], [] => isTrue rfl
  | [], _ :: _ => isFalse (fun h => List.noConfusion h)
  | _ :: _, [] => isFalse (fun h => List.noConfusion h)
  | a :: as, b :: bs =>
    match Value.decEq a b, Value.decEqList as bs with
    | isTrue h₁, isTrue h₂ => isTrue (by rw [h₁, h₂])
    | isFalse h₁, _ => isFalse (by intro hh; injection hh with e₁ e₂; exact h₁ e₁)
    | _, isFalse h₂ => isFalse (by intro hh; injection hh with e₁ e₂; exact h₂ e₂)

/-- Decidable equality for association lists of `Value`. -/
def Value.decEqPairs : (as bs : List (String × Value)) → Decidable (as = bs)
  | [], [] => isTrue rfl
  | [], _ :: _ => isFalse (fun h => List.noConfusion h)
  | _ :: _, [] => isFalse (fun h => List.noConfusion h)
  | (k₁, v₁) :: as, (k₂, v₂) :: bs =>
    match inferInstanceAs (Decidable (k₁ = k₂)), Value.decEq v₁ v₂, Value.decEqPairs as bs with
    | isTrue h₀, isTrue h₁, isTrue h₂ => isTrue (by rw [h₀, h₁, h₂])
    | isFalse h₀, _, _ =>
      isFalse (by intro hh; injection hh with e₁ e₂; exact h₀ (congrArg Prod.fst e₁))
    | _, isFalse h₁, _ =>
      isFalse (by intro hh; injection hh with e₁ e₂; exact h₁ (congrArg Prod.snd e₁))
    | _, _, isFalse h₂ => isFalse (by intro hh; injection hh with e₁ e₂; exact h₂ e₂)

end

instance : DecidableEq Value := Value.decEq

/-- Decidable equality of `Except` results, to evaluate the model on
concrete inputs. -/
instance {ε α : Type} [DecidableEq ε] [DecidableEq α] : DecidableEq (Except ε α) :=
  fun a b =>
    match a, b with
    | .error e₁, .error e₂ =>
      match inferInstanceAs (Decidable (e₁ = e₂)) with
      | isTrue h => isTrue (by rw [h])
      | isFalse h => isFalse (by intro hh; injection hh with e; exact h e)
    | .error _, .ok _ => isFalse (fun h => Except.noConfusion h)
    | .ok _, .error _ => isFalse (fun h => Except.noConfusion h)
    | .ok a₁, .ok a₂ =>
      match inferInstanceAs (Decidable (a₁ = a₂)) with
      | isTrue h => isTrue (by rw [h])
      | isFalse h => isFalse (by intro hh; injection hh with e; exact h e)

/-- Contiguous-substring test on lists, used for Python's `x in y` on
strings (`'bc' in 'abc'`). -/
def subListAt {α : Type} [DecidableEq α] (needle hay : List α) : Bool :=
  (List.range (hay.length + 1)).any
    (fun i => decide ((hay.drop i).take needle.length = needle))

/-- Lookup of a key in a Python dict, modelled as first match in the
association list (keys of a Python dict are unique). -/
def dictGet (kvs : List (String × Value)) (k : String) : Option Value :=
  match kvs with
  | [] => none
  | (k₁, v) :: rest => if k₁ = k then some v else dictGet rest k

/-- Python subscripting `v[k]` with a string key: a dict yields the stored
value or raises `KeyError`; subscripting any other value with a string
raises `TypeError`. -/
def pyGetItem (v : Value) (k : String) : Except PyErr Value :=
  match v with
  | .dict kvs =>
    match dictGet kvs k with
    | some x => .ok x
    | none => .error .keyError
  | _ => .error .typeError

/-- The Python 2 membership test `x in container`: list membership by value
equality, dict key membership, substring test on strings (a non-string left
operand raises `TypeError`), and `TypeError` on an integer container. -/
def pyContains (container x : Value) : Except PyErr Bool :=
  match container with
  | .list vs => .ok (decide (x ∈ vs))
  | .dict kvs =>
    match x with
    | .str s => .ok (kvs.any (fun kv => decide (kv.1 = s)))
    | _ => .ok false
  | .str s =>
    match x with
    | .str u => .ok (subListAt u.data s.data)
    | _ => .error .typeError
  | .blob bs =>
    match x with
    | .blob u => .ok (subListAt u bs)
    | _ => .error .typeError
  | .int _ => .error .typeError

/-- Behaviour of the underlying `socket.send` for one connection, as seen
through `asyncore.dispatcher.send`: a successful transmit, a
disconnect-class `socket.error` (peer gone: `asyncore` calls
`handle_close` and returns 0 instead of raising), or any other
`socket.error`, which `asyncore.dispatcher.send` re-raises. -/
inductive SendOutcome where
  | transmitted
  | peerGone
  | raisesError
deriving DecidableEq

/-- One accepted server-side connection (`ClientHandler` in voltron.py).
`registration` is the attribute set only by `handle_register`; a freshly
accepted handler has no such attribute (`none`).  `sent` records the events
for which `send_event` was invoked and returned; `closed` records whether
`asyncore` tore the channel down. -/
structure ClientHandler where
  registration : Option Value := none
  closed : Bool := false
  sendBehavior : SendOutcome := .transmitted
  sent : List Value := []
deriving DecidableEq

/-- `ClientHandler.send_event` (lines 250-252): `self.send(pickle.dumps(event))`.
With a disconnect-class error the `asyncore` layer closes the channel and
`send` returns 0, so `send_event` still returns normally; any other
`socket.error` propagates to the caller. -/
def ClientHandler.send_event (c : ClientHandler) (e : Value) : Except PyErr ClientHandler :=
  match c.sendBehavior with
  | .transmitted => .ok { c with sent := c.sent ++ [e] }
  | .peerGone => .ok { c with closed := true, sent := c.sent ++ [e] }
  | .raisesError => .error .socketError

/-- `ClientHandler.handle_register` (lines 246-248): the debug log line
evaluates `msg['for_types']` (so a message without that key raises), then
`self.registration = msg` stores the whole message. -/
def ClientHandler.handle_register (c : ClientHandler) (msg : Value) : Except PyErr ClientHandler :=
  match pyGetItem msg "for_types" with
  | .error err => .error err
  | .ok _ => .ok { c with registration := some msg }

/-- The subscription test `event['update_type'] in client.registration['for_types']`
from line 297, given the already-evaluated update type: reading the
`registration` attribute of a never-registered handler raises
`AttributeError`. -/
def ClientHandler.subscMatches (c : ClientHandler) (ut : Value) : Except PyErr Bool :=
  match c.registration with
  | none => .error .attributeError
  | some msg =>
    match pyGetItem msg "for_types" with
    | .error err => .error err
    | .ok ft => pyContains ft ut

/-- Whether the line-297 test would select this client for this event,
when it evaluates without an exception (`false` on any exception). -/
def ClientHandler.wouldDeliver (c : ClientHandler) (e : Value) : Bool :=
  match pyGetItem e "msg_type" with
  | .error _ => false
  | .ok mt =>
    if mt = Value.str "update" then
      match pyGetItem e "update_type" with
      | .error _ => false
      | .ok ut =>
        match c.subscMatches ut with
        | .error _ => false
        | .ok b => b
    else false

/-- The body of the fan-out loop at lines 296-298 for one client: evaluate
`event['msg_type'] == 'update'`, and if it holds evaluate
`event['update_type'] in client.registration['for_types']` (in Python's
evaluation order) and call `send_event` on a match. -/
def dispatchToClient (e : Value) (c : ClientHandler) : Except PyErr ClientHandler :=
  match pyGetItem e "msg_type" with
  | .error err => .error err
  | .ok mt =>
    if mt = Value.str "update" then
      match pyGetItem e "update_type" with
      | .error err => .error err
      | .ok ut =>
        match c.subscMatches ut with
        | .error err => .error err
        | .ok b => if b then c.send_event e else .ok c
    else .ok c

/-- `for client in clients:` (line 296) over one drained event.  An exception
raised for one client propagates out of `ServerThread.run` immediately:
the returned pair is the client list at that point together with the
escaped exception, and later clients are not visited. -/
def dispatchEvent (e : Value) : List ClientHandler → List ClientHandler × Option PyErr
  | [] => ([], none)
  | c :: cs =>
    match dispatchToClient e c with
    | .error err => (c :: cs, some err)
    | .ok c₁ =>
      match dispatchEvent e cs with
      | (cs₁, r) => (c₁ :: cs₁, r)

/-- `while not queue.empty(): event = queue.get(); ...` (lines 294-298):
`Queue.Queue` is FIFO, so the drained events are modelled as a list consumed
front first, each fully fanned out before the next is taken.  An escaped
exception ends the drain (and kills the server thread). -/
def drainQueue : List Value → List ClientHandler → List ClientHandler × Option PyErr
  | [], cs => (cs, none)
  | e :: es, cs =>
    match dispatchEvent e cs with
    | (cs₁, some err) => (cs₁, some err)
    | (cs₁, none) => drainQueue es cs₁

/-- A freshly constructed `ClientHandler(sock)`: no `registration` attribute
exists until `handle_register` runs. -/
def ClientHandler.fresh : ClientHandler := {}

/-- `Server.handle_accept` (lines 267-274): a new handler is appended to the
global `clients` list with no registration. -/
def handle_accept (cs : List ClientHandler) : List ClientHandler :=
  cs ++ [ClientHandler.fresh]

/-- Sequential processing of a list of register messages on one connection,
as `handle_register` is invoked once per received register message. -/
def processRegisters (c : ClientHandler) : List Value → Except PyErr ClientHandler
  | [] => .ok c
  | m :: ms =>
    match c.handle_register m with
    | .error err => .error err
    | .ok c₁ => processRegisters c₁ ms

/-! ### Structured message codec

Modelled from the spec: the codec used by voltron.py is the `pickle`
standard-library module (`pickle.dumps` / `pickle.loads`), whose code is not
part of this repository.  Section 4.1 of the spec gives its contract:
`encode(value) -> bytes`, `decode(bytes) -> value | DecodeError`, round-trips
nested mappings, sequences, strings, integers and raw byte blobs losslessly,
and fails (rather than returning partial data) on malformed or truncated
input.  The model below is an executable codec with exactly that contract:
`decode` returns `none` for `DecodeError`. -/

/-- Fuel-indexed little-endian base-255 digit computation; the fuel is an
upper bound on the number being converted, which makes the recursion
structural (and hence kernel-reducible). -/
def natDigitsAux : Nat → Nat → List Nat
  | 0, _ => []
  | _ + 1, 0 => []
  | fuel + 1, n + 1 => ((n + 1) % 255) :: natDigitsAux fuel ((n + 1) / 255)

/-- Little-endian base-255 digits of a natural number; every digit is < 255,
so the byte 255 can terminate a number. -/
def natDigits (n : Nat) : List Nat :=
  natDigitsAux n n

/-- Reassemble a natural number from little-endian base-255 digits. -/
def undigits : List Nat → Nat
  | [] => 0
  | d :: ds => d + 255 * undigits ds

/-- Encoding of a natural number: its base-255 digits, terminated by 255. -/
def encNat (n : Nat) : List Nat :=
  natDigits n ++ [255]

/-- Split the input at the first 255 terminator. -/
def decNatAux : List Nat → Option (List Nat × List Nat)
  | [] => none
  | b :: bs =>
    if b = 255 then some ([], bs)
    else
      match decNatAux bs with
      | none => none
      | some (ds, rest) => some (b :: ds, rest)

/-- Decoding of a terminated natural number, returning the remaining input. -/
def decNat (bs : List Nat) : Option (Nat × List Nat) :=
  match decNatAux bs with
  | none => none
  | some (ds, rest) => some (undigits ds, rest)

/-- Encoding of an integer: a sign byte then the magnitude. -/
def encInt (i : Int) : List Nat :=
  if i < 0 then 1 :: encNat i.natAbs else 0 :: encNat i.natAbs

/-- Decoding of an integer. -/
def decInt (bs : List Nat) : Option (Int × List Nat) :=
  match bs with
  | 0 :: rest =>
    match decNat rest with
    | none => none
    | some (n, r) => some ((n : Int), r)
  | 1 :: rest =>
    match decNat rest with
    | none => none
    | some (n, r) => some (-(n : Int), r)
  | _ => none

/-- Encoding of a character sequence: each code point as a terminated number. -/
def encChars : List Char → List Nat
  | [] => []
  | ch :: cs => encNat ch.toNat ++ encChars cs

/-- Decoding of a known number of characters. -/
def decChars : Nat → List Nat → Option (List Char × List Nat)
  | 0, bs => some ([], bs)
  | n + 1, bs =>
    match decNat bs with
    | none => none
    | some (c, rest) =>
      match decChars n rest with
      | none => none
      | some (cs, rest₁) => some (Char.ofNat c :: cs, rest₁)

/-- Encoding of a string: its length then its characters. -/
def encStr (s : String) : List Nat :=
  encNat s.data.length ++ encChars s.data

/-- Decoding of a string. -/
def decStr (bs : List Nat) : Option (String × List Nat) :=
  match decNat bs with
  | none => none
  | some (n, r) =>
    match decChars n r with
    | none => none
    | some (cs, r₁) => some (String.mk cs, r₁)

/-- Read exactly `n` raw bytes from the input. -/
def takeExact : Nat → List Nat → Option (List Nat × List Nat)
  | 0, bs => some ([], bs)
  | _ + 1, [] => none
  | n + 1, b :: bs =>
    match takeExact n bs with
    | none => none
    | some (ds, rest) => some (b :: ds, rest)

mutual

/-- Encoding of a `Value`: a tag byte then the payload. -/
def encodeVal : Value → List Nat
  | .int i => 0 :: encInt i
  | .str s => 1 :: encStr s
  | .blob bs => 2 :: (encNat bs.length ++ bs)
  | .list vs => 3 :: (encNat vs.length ++ encodeList vs)
  | .dict kvs => 4 :: (encNat kvs.length ++ encodePairs kvs)

/-- Encoding of a sequence of values, concatenated. -/
def encodeList : List Value → List Nat
  | [] => []
  | v :: vs => encodeVal v ++ encodeList vs

/-- Encoding of a sequence of key-value pairs, concatenated. -/
def encodePairs : List (String × Value) → List Nat
  | [] => []
  | (k, v) :: kvs => encStr k ++ encodeVal v ++ encodePairs kvs

end

/-- Decoding of a known number of values with a given element decoder. -/
def decodeListWith (dv : List Nat → Option (Value × List Nat)) :
    Nat → List Nat → Option (List Value × List Nat)
  | 0, bs => some ([], bs)
  | n + 1, bs =>
    match dv bs with
    | none => none
    | some (v, r) =>
      match decodeListWith dv n r with
      | none => none
      | some (vs, r₁) => some (v :: vs, r₁)

/-- Decoding of a known number of key-value pairs with a given value decoder. -/
def decodePairsWith (dv : List Nat → Option (Value × List Nat)) :
    Nat → List Nat → Option (List (String × Value) × List Nat)
  | 0, bs => some ([], bs)
  | n + 1, bs =>
    match decStr bs with
    | none => none
    | some (k, r) =>
      match dv r with
      | none => none
      | some (v, r₁) =>
        match decodePairsWith dv n r₁ with
        | none => none
        | some (kvs, r₂) => some ((k, v) :: kvs, r₂)

/-- Fuel-indexed decoding of one `Value`.  The fuel bounds the nesting
depth; `decode` supplies the input length, which always suffices. -/
def decodeVal : Nat → List Nat → Option (Value × List Nat)
  | 0, _ => none
  | fuel + 1, bs =>
    match bs with
    | 0 :: rest =>
      match decInt rest with
      | none => none
      | some (i, r) => some (Value.int i, r)
    | 1 :: rest =>
      match decStr rest with
      | none => none
      | some (s, r) => some (Value.str s, r)
    | 2 :: rest =>
      match decNat rest with
      | none => none
      | some (n, r) =>
        match takeExact n r with
        | none => none
        | some (ds, r₁) => some (Value.blob ds, r₁)
    | 3 :: rest =>
      match decNat rest with
      | none => none
      | some (n, r) =>
        match decodeListWith (decodeVal fuel) n r with
        | none => none
        | some (vs, r₁) => some (Value.list vs, r₁)
    | 4 :: rest =>
      match decNat rest with
      | none => none
      | some (n, r) =>
        match decodePairsWith (decodeVal fuel) n r with
        | none => none
        | some (kvs, r₁) => some (Value.dict kvs, r₁)
    | _ => none

/-- `encode(value) -> bytes` of the codec contract. -/
def encode (v : Value) : List Nat :=
  encodeVal v

/-- `decode(bytes) -> value | DecodeError` of the codec contract: `none` is
`DecodeError`.  The whole input must be consumed by exactly one value. -/
def decode (bs : List Nat) : Option Value :=
  match decodeVal bs.length bs with
  | some (v, []) => some v
  | _ => none

mutual

/-- Nesting depth of a `Value`; the fuel `decodeVal` needs. -/
def depthV : Value → Nat
  | .int _ => 1
  | .str _ => 1
  | .blob _ => 1
  | .list vs => 1 + depthList vs
  | .dict kvs => 1 + depthPairs kvs

/-- Greatest nesting depth among a list of values. -/
def depthList : List Value → Nat
  | [] => 0
  | v :: vs => max (depthV v) (depthList vs)

/-- Greatest nesting depth among the values of an association list. -/
def depthPairs : List (String × Value) → Nat
  | [] => 0
  | (_, v) :: kvs => max (depthV v) (depthPairs kvs)

end

/-! ### Socket reads and the server/client read handlers -/

/-- `READ_MAX = 0xFFFF` (voltron.py line 36). -/
def READ_MAX : Nat := 0xFFFF

/-- `self.recv(n)`: a socket read that requests at most `n` bytes of the
pending data. -/
def pyRecv (n : Nat) (pending : List Nat) : List Nat :=
  pending.take n

/-- A Python 2 whitespace byte, as used by `str.strip()`. -/
def isSpaceByte (b : Nat) : Bool :=
  b == 9 || b == 10 || b == 11 || b == 12 || b == 13 || b == 32

/-- `data.strip()` on a byte string. -/
def pyStrip (bs : List Nat) : List Nat :=
  ((bs.dropWhile isSpaceByte).reverse.dropWhile isSpaceByte).reverse

/-- `ClientHandler.handle_read` (lines 232-244): `data = self.recv(READ_MAX)`;
if `data.strip() != ""`, try to decode.  On decode failure the `except`
clause logs — and then the `if msg['msg_type'] == 'register'` line runs with
the local `msg` never assigned, raising `UnboundLocalError`.  On a decoded
register message, `handle_register`; on a decoded message of any other type
the error log concatenates `'Invalid message type: ' + msg['msg_type']`,
which itself raises `TypeError` unless that value is a string. -/
def ClientHandler.handle_read (c : ClientHandler) (pending : List Nat) :
    Except PyErr ClientHandler :=
  let data := pyRecv READ_MAX pending
  if pyStrip data = [] then .ok c
  else
    match decode data with
    | none => .error .unboundLocal
    | some msg =>
      match pyGetItem msg "msg_type" with
      | .error err => .error err
      | .ok mt =>
        if mt = Value.str "register" then c.handle_register msg
        else
          match mt with
          | .str _ => .ok c
          | _ => .error .typeError

/-- `Client.handle_read` (lines 335-343), the viewer side: decode the chunk
and pass the message to `view.render` when a view is attached.  The same
unbound-`msg` pattern appears here: on decode failure with a view attached,
`self.view.render(msg)` raises `UnboundLocalError`.  Returns the message
handed to the renderer, if any. -/
def Client.handle_read (hasView : Bool) (pending : List Nat) :
    Except PyErr (Option Value) :=
  let data := pyRecv READ_MAX pending
  match decode data with
  | some msg => .ok (if hasView then some msg else none)
  | none => if hasView then .error .unboundLocal else .ok none

/-! ### Lifecycle controller -/

/-- The `_should_exit` flag of `ServerThread`, guarded by `self.lock`
(lines 304-313). -/
structure ServerThreadState where
  shouldExitFlag : Bool
deriving DecidableEq

/-- `ServerThread.set_should_exit` (lines 310-313). -/
def ServerThreadState.set_should_exit (_ : ServerThreadState) (b : Bool) : ServerThreadState :=
  { shouldExitFlag := b }

/-- `ServerThread.should_exit` (lines 304-308), read by the dispatch loop
each iteration. -/
def ServerThreadState.should_exit (t : ServerThreadState) : Bool :=
  t.shouldExitFlag

/-- Outcome reported by `VoltronCommand.stop`. -/
inductive StopReport where
  | stoppedClean
  | failedToStop
  | notRunning
deriving DecidableEq

/-- Observable effects of one `stop` call: the arguments of its
`set_should_exit` calls, the timeout arguments of its `thread.join` calls
(`some t` is a bounded wait), and whether any forced-kill primitive was
used (none exists in the source). -/
structure StopTrace where
  setShouldExitCalls : List Bool
  joinTimeouts : List (Option Nat)
  forcedKill : Bool
deriving DecidableEq

/-- The mutable state of `VoltronCommand` relevant to `stop`. -/
structure VoltronCmdState where
  running : Bool
  thread : ServerThreadState
deriving DecidableEq

/-- `VoltronCommand.stop` (lines 155-165): when running, it calls
`self.thread.set_should_exit(True)`, `self.thread.join(10)`, then prints
"Failed to stop voltron" if `self.thread.isAlive()` and sets
`self.running = False`; when not running it only prints "Not running".
`threadAliveAfterJoin` is the oracle for `isAlive()` after the bounded
join returned. -/
def VoltronCommand.stop (s : VoltronCmdState) (threadAliveAfterJoin : Bool) :
    VoltronCmdState × StopReport × StopTrace :=
  if s.running then
    ({ running := false, thread := s.thread.set_should_exit true },
     if threadAliveAfterJoin then .failedToStop else .stoppedClean,
     { setShouldExitCalls := [true], joinTimeouts := [some 10], forcedKill := false })
  else
    (s, .notRunning,
     { setShouldExitCalls := [], joinTimeouts := [], forcedKill := false })

/-! ### Concrete sample values used by witnesses and counterexamples -/

/-- The four update-type tags, as the `for_types` list a register-view-like
client would send (cf. `self.types = ['register']` etc. in the views). -/
def allTypes : List Value :=
  [.str "register", .str "disasm", .str "stack", .str "bt"]

/-- A register message subscribing to every update type. -/
def regMsgAll : Value :=
  .dict [("msg_type", .str "register"), ("for_types", .list allTypes)]

/-- A register message subscribing only to `stack`. -/
def regMsgStack : Value :=
  .dict [("msg_type", .str "register"), ("for_types", .list [.str "stack"])]

/-- A register message subscribing to `register` and `stack`. -/
def regMsgRegStack : Value :=
  .dict [("msg_type", .str "register"),
         ("for_types", .list [.str "register", .str "stack"])]

/-- The update event the stop handler builds for registers (line 207),
with a small payload. -/
def updRegEvent : Value :=
  .dict [("msg_type", .str "update"), ("update_type", .str "register"),
         ("data", .dict [("rax", .int 7)])]

/-- The update event the stop handler builds for the stack (line 219). -/
def updStackEvent : Value :=
  .dict [("msg_type", .str "update"), ("update_type", .str "stack"),
         ("data", .dict [("data", .blob [1, 2, 3]), ("sp", .int 4096)])]

/-- The update event the stop handler builds for disassembly (line 213). -/
def updDisasmEvent : Value :=
  .dict [("msg_type", .str "update"), ("update_type", .str "disasm"),
         ("data", .str "mov rax, rbx")]

/-- A drained event whose `msg_type` is not `update`. -/
def syncEvent : Value :=
  .dict [("msg_type", .str "sync"), ("data", .int 0)]

/-- A healthy client registered for all update types. -/
def cAll : ClientHandler := { registration := some regMsgAll }

/-- A healthy client registered only for `stack`. -/
def cStack : ClientHandler := { registration := some regMsgStack }

/-- A registered client whose peer has gone away: its socket send fails with
a disconnect-class error that `asyncore` absorbs. -/
def cPeerGone : ClientHandler :=
  { registration := some regMsgAll, sendBehavior := .peerGone }

/-- A registered client whose socket send raises a non-disconnect
`socket.error`. -/
def cFatal : ClientHandler :=
  { registration := some regMsgAll, sendBehavior := .raisesError }

/-- The bytes of `b"garbage"`, which no valid encoding starts with. -/
def garbageChunk : List Nat := [103, 97, 114, 98, 97, 103, 101]

/-- `cAll` after one register-type update has been dispatched to it. -/
def cAllAfter : ClientHandler :=
  { registration := some regMsgAll, sent := [updRegEvent] }

/-- `cStack` after the stack update of a three-event drain has been
dispatched to it. -/
def cStackAfter : ClientHandler :=
  { registration := some regMsgStack, sent := [updStackEvent] }

/-! ### Codec round-trip -/

theorem natDigitsAux_lt (fuel : Nat) :
    ∀ n, ∀ d ∈ natDigitsAux fuel n, d < 255 := by
  induction fuel with
  | zero => intro n; simp [natDigitsAux]
  | succ fuel ih =>
    intro n
    cases n with
    | zero => simp [natDigitsAux]
    | succ m =>
      simp only [natDigitsAux, List.mem_cons]
      rintro d (rfl | hd)
      · exact Nat.mod_lt _ (by decide)
      · exact ih _ d hd

theorem undigits_natDigitsAux (fuel : Nat) :
    ∀ n, n ≤ fuel → undigits (natDigitsAux fuel n) = n := by
  induction fuel with
  | zero =>
    intro n hn
    have : n = 0 := Nat.le_zero.mp hn
    subst this
    simp [natDigitsAux, undigits]
  | succ fuel ih =>
    intro n hn
    cases n with
    | zero => simp [natDigitsAux, undigits]
    | succ m =>
      have hlt : (m + 1) / 255 < m + 1 := Nat.div_lt_self (Nat.succ_pos m) (by decide)
      simp only [natDigitsAux, undigits]
      rw [ih ((m + 1) / 255) (by omega)]
      exact Nat.mod_add_div (m + 1) 255

theorem decNatAux_append (ds : List Nat) (hds : ∀ d ∈ ds, d < 255) (rest : List Nat) :
    decNatAux (ds ++ 255 :: rest) = some (ds, rest) := by
  induction ds with
  | nil => simp [decNatAux]
  | cons d ds ih =>
    have hd : d < 255 := hds d (by simp)
    have hne : ¬(d = 255) := by omega
    have h1 := ih (fun x hx => hds x (List.mem_cons_of_mem d hx))
    simp only [List.cons_append, decNatAux, hne, if_false, List.append_eq, h1]

theorem decNat_encNat (n : Nat) (rest : List Nat) :
    decNat (encNat n ++ rest) = some (n, rest) := by
  have h1 : encNat n ++ rest = natDigits n ++ 255 :: rest := by
    simp [encNat]
  rw [h1]
  unfold decNat natDigits
  simp only [decNatAux_append (natDigitsAux n n) (natDigitsAux_lt n n) rest,
    undigits_natDigitsAux n n (Nat.le_refl n)]

theorem decInt_encInt (i : Int) (rest : List Nat) :
    decInt (encInt i ++ rest) = some (i, rest) := by
  by_cases hi : i < 0
  · simp only [encInt, if_pos hi, List.cons_append, decInt, decNat_encNat]
    have h : -((i.natAbs : Nat) : Int) = i := by omega
    rw [h]
  · simp only [encInt, if_neg hi, List.cons_append, decInt, decNat_encNat]
    have h : ((i.natAbs : Nat) : Int) = i := by omega
    rw [h]

theorem decChars_encChars (cs : List Char) (rest : List Nat) :
    decChars cs.length (encChars cs ++ rest) = some (cs, rest) := by
  induction cs with
  | nil => simp [encChars, decChars]
  | cons c cs ih =>
    simp only [List.length_cons, encChars, List.append_assoc, decChars, decNat_encNat]
    rw [ih]
    simp

theorem decStr_encStr (s : String) (rest : List Nat) :
    decStr (encStr s ++ rest) = some (s, rest) := by
  simp only [encStr, List.append_assoc, decStr, decNat_encNat, decChars_encChars]

theorem takeExact_append (ds rest : List Nat) :
    takeExact ds.length (ds ++ rest) = some (ds, rest) := by
  induction ds with
  | nil => simp [takeExact]
  | cons d ds ih => simp [takeExact, ih]

theorem decodeListWith_enc (dv : List Nat → Option (Value × List Nat)) (vs : List Value)
    (H : ∀ v ∈ vs, ∀ r, dv (encodeVal v ++ r) = some (v, r)) (rest : List Nat) :
    decodeListWith dv vs.length (encodeList vs ++ rest) = some (vs, rest) := by
  induction vs with
  | nil => simp [encodeList, decodeListWith]
  | cons v vs ih =>
    have h1 := H v (by simp)
    have h2 := ih (fun u hu r => H u (by simp [hu]) r)
    simp only [List.length_cons, encodeList, List.append_assoc, decodeListWith, h1, h2]

theorem decodePairsWith_enc (dv : List Nat → Option (Value × List Nat))
    (kvs : List (String × Value))
    (H : ∀ kv ∈ kvs, ∀ r, dv (encodeVal kv.2 ++ r) = some (kv.2, r)) (rest : List Nat) :
    decodePairsWith dv kvs.length (encodePairs kvs ++ rest) = some (kvs, rest) := by
  induction kvs with
  | nil => simp [encodePairs, decodePairsWith]
  | cons kv kvs ih =>
    obtain ⟨k, v⟩ := kv
    have h1 := H (k, v) (by simp)
    dsimp only at h1
    have h2 := ih (fun u hu r => H u (by simp [hu]) r)
    simp only [List.length_cons, encodePairs, List.append_assoc, decodePairsWith,
      decStr_encStr, h1, h2]

theorem depthV_pos (v : Value) : 1 ≤ depthV v := by
  cases v <;> simp [depthV]

theorem depthV_le_depthList {v : Value} {vs : List Value} (h : v ∈ vs) :
    depthV v ≤ depthList vs := by
  induction vs with
  | nil => cases h
  | cons u vs ih =>
    rcases List.mem_cons.mp h with rfl | h₁
    · simp only [depthList]
      exact Nat.le_max_left _ _
    · exact Nat.le_trans (ih h₁) (by simp only [depthList]; exact Nat.le_max_right _ _)

theorem depthV_le_depthPairs {v : Value} {k : String} {kvs : List (String × Value)}
    (h : (k, v) ∈ kvs) : depthV v ≤ depthPairs kvs := by
  induction kvs with
  | nil => cases h
  | cons kv kvs ih =>
    obtain ⟨k₁, v₁⟩ := kv
    rcases List.mem_cons.mp h with heq | h₁
    · injection heq with e₁ e₂
      subst e₂
      simp only [depthPairs]
      exact Nat.le_max_left _ _
    · exact Nat.le_trans (ih h₁) (by simp only [depthPairs]; exact Nat.le_max_right _ _)

theorem decodeVal_enc (fuel : Nat) :
    ∀ (v : Value), depthV v ≤ fuel →
      ∀ rest, decodeVal fuel (encodeVal v ++ rest) = some (v, rest) := by
  induction fuel with
  | zero =>
    intro v hv
    exact absurd hv (by have := depthV_pos v; omega)
  | succ fuel ih =>
    intro v hv rest
    cases v with
    | int i =>
      simp only [encodeVal, List.cons_append, decodeVal, decInt_encInt]
    | str s =>
      simp only [encodeVal, List.cons_append, decodeVal, decStr_encStr]
    | blob bs =>
      simp only [encodeVal, List.cons_append, List.append_assoc, decodeVal,
        decNat_encNat, takeExact_append]
    | list vs =>
      have hd : ∀ u ∈ vs, depthV u ≤ fuel := by
        intro u hu
        have h1 := depthV_le_depthList hu
        simp only [depthV] at hv
        omega
      simp only [encodeVal, List.cons_append, List.append_assoc, decodeVal, decNat_encNat]
      rw [decodeListWith_enc (decodeVal fuel) vs (fun u hu r => ih u (hd u hu) r) rest]
    | dict kvs =>
      have hd : ∀ kv ∈ kvs, depthV kv.2 ≤ fuel := by
        intro kv hkv
        obtain ⟨k, u⟩ := kv
        have h1 := depthV_le_depthPairs hkv
        simp only [depthV] at hv
        dsimp only
        omega
      simp only [encodeVal, List.cons_append, List.append_assoc, decodeVal, decNat_encNat]
      rw [decodePairsWith_enc (decodeVal fuel) kvs (fun kv hkv r => ih kv.2 (hd kv hkv) r) rest]

theorem depthList_le_encLen (vs : List Value)
    (H : ∀ v ∈ vs, depthV v ≤ (encodeVal v).length) :
    depthList vs ≤ (encodeList vs).length := by
  induction vs with
  | nil => simp [depthList, encodeList]
  | cons v vs ih =>
    simp only [depthList, encodeList, List.length_append]
    have h1 := H v (by simp)
    have h2 := ih (fun u hu => H u (by simp [hu]))
    exact Nat.max_le.mpr ⟨by omega, by omega⟩

theorem depthPairs_le_encLen (kvs : List (String × Value))
    (H : ∀ kv ∈ kvs, depthV kv.2 ≤ (encodeVal kv.2).length) :
    depthPairs kvs ≤ (encodePairs kvs).length := by
  induction kvs with
  | nil => simp [depthPairs, encodePairs]
  | cons kv kvs ih =>
    obtain ⟨k, v⟩ := kv
    simp only [depthPairs, encodePairs, List.length_append]
    have h1 := H (k, v) (by simp)
    dsimp only at h1
    have h2 := ih (fun u hu => H u (by simp [hu]))
    exact Nat.max_le.mpr ⟨by omega, by omega⟩

theorem depthV_le_encLen_aux (n : Nat) :
    ∀ (v : Value), sizeOf v ≤ n → depthV v ≤ (encodeVal v).length := by
  induction n with
  | zero =>
    intro v hv
    exfalso
    cases v <;> simp at hv
  | succ n ih =>
    intro v hv
    cases v with
    | int i => simp [depthV, encodeVal]
    | str s => simp [depthV, encodeVal]
    | blob bs => simp [depthV, encodeVal]
    | list vs =>
      have hsz : ∀ u ∈ vs, sizeOf u ≤ n := by
        intro u hu
        have h1 := List.sizeOf_lt_of_mem hu
        have h2 : sizeOf (Value.list vs) = 1 + sizeOf vs := by simp
        omega
      have h := depthList_le_encLen vs (fun u hu => ih u (hsz u hu))
      simp only [depthV, encodeVal, List.length_cons, List.length_append]
      omega
    | dict kvs =>
      have hsz : ∀ kv ∈ kvs, sizeOf kv.2 ≤ n := by
        intro kv hkv
        obtain ⟨k, u⟩ := kv
        have h1 := List.sizeOf_lt_of_mem hkv
        have h2 : sizeOf (Value.dict kvs) = 1 + sizeOf kvs := by simp
        have h3 : sizeOf (k, u) = 1 + sizeOf k + sizeOf u := by simp
        dsimp only
        omega
      have h := depthPairs_le_encLen kvs (fun kv hkv => ih kv.2 (hsz kv hkv))
      simp only [depthV, encodeVal, List.length_cons, List.length_append]
      omega

theorem depthV_le_encLen (v : Value) : depthV v ≤ (encodeVal v).length :=
  depthV_le_encLen_aux (sizeOf v) v (Nat.le_refl _)

/-- C7: for every value of a supported message shape (nested string-keyed
mappings, sequences, strings, integers, raw byte blobs), decoding the
encoding of the value yields the value back unchanged:
`decode(encode(x)) == x`. -/
theorem C7_decode_encode (v : Value) : decode (encode v) = some v := by
  unfold decode encode
  have h2 := decodeVal_enc (encodeVal v).length v (depthV_le_encLen v) []
  rw [List.append_nil] at h2
  rw [h2]

/-! ### Dispatch-loop lemmas -/

theorem send_event_ok {c c' : ClientHandler} {e : Value}
    (h : c.send_event e = .ok c') :
    c'.registration = c.registration ∧ c'.sendBehavior = c.sendBehavior ∧
      c'.sent = c.sent ++ [e] := by
  unfold ClientHandler.send_event at h
  cases hb : c.sendBehavior
  case transmitted =>
    rw [hb] at h
    injection h with h₁
    subst h₁
    exact ⟨rfl, rfl, rfl⟩
  case peerGone =>
    rw [hb] at h
    injection h with h₁
    subst h₁
    exact ⟨rfl, rfl, rfl⟩
  case raisesError =>
    rw [hb] at h
    exact Except.noConfusion h

theorem send_event_succeeds {c : ClientHandler}
    (h : c.sendBehavior ≠ SendOutcome.raisesError) (e : Value) :
    ∃ c₁, c.send_event e = .ok c₁ := by
  unfold ClientHandler.send_event
  cases hb : c.sendBehavior
  case transmitted => exact ⟨_, rfl⟩
  case peerGone => exact ⟨_, rfl⟩
  case raisesError => exact absurd hb h

theorem dispatchToClient_ok {e : Value} {c c' : ClientHandler}
    (h : dispatchToClient e c = .ok c') :
    c'.registration = c.registration ∧ c'.sendBehavior = c.sendBehavior ∧
      c'.sent = c.sent ++ (if c.wouldDeliver e then [e] else []) := by
  unfold dispatchToClient at h
  cases hmt : pyGetItem e "msg_type" with
  | error err =>
    rw [hmt] at h
    exact Except.noConfusion h
  | ok mt =>
    simp only [hmt] at h
    by_cases hupd : mt = Value.str "update"
    · subst hupd
      rw [if_pos rfl] at h
      cases hut : pyGetItem e "update_type" with
      | error err =>
        rw [hut] at h
        exact Except.noConfusion h
      | ok ut =>
        simp only [hut] at h
        cases hsm : c.subscMatches ut with
        | error err =>
          rw [hsm] at h
          exact Except.noConfusion h
        | ok b =>
          simp only [hsm] at h
          have hw : c.wouldDeliver e = b := by
            unfold ClientHandler.wouldDeliver
            simp only [hmt, hut, hsm]
            simp
          rw [hw]
          cases b
          · rw [if_neg (by simp)] at h
            rw [if_neg (by simp)]
            injection h with h₁
            subst h₁
            exact ⟨rfl, rfl, by simp⟩
          · rw [if_pos rfl] at h
            rw [if_pos rfl]
            exact send_event_ok h
    · rw [if_neg hupd] at h
      have hw : c.wouldDeliver e = false := by
        unfold ClientHandler.wouldDeliver
        simp only [hmt]
        rw [if_neg hupd]
      rw [hw]
      rw [if_neg (by simp)]
      injection h with h₁
      subst h₁
      exact ⟨rfl, rfl, by simp⟩

theorem wouldDeliver_congr {c₁ c₂ : ClientHandler}
    (h : c₁.registration = c₂.registration) (e : Value) :
    c₁.wouldDeliver e = c₂.wouldDeliver e := by
  unfold ClientHandler.wouldDeliver ClientHandler.subscMatches
  rw [h]

theorem dispatchEvent_ok_forall₂ {e : Value} :
    ∀ {cs cs' : List ClientHandler}, dispatchEvent e cs = (cs', none) →
      List.Forall₂ (fun c c' => dispatchToClient e c = .ok c') cs cs' := by
  intro cs
  induction cs with
  | nil =>
    intro cs' h
    unfold dispatchEvent at h
    injection h with h₁ h₂
    subst h₁
    exact List.Forall₂.nil
  | cons c cs ih =>
    intro cs' h
    unfold dispatchEvent at h
    cases hd : dispatchToClient e c
    case error err =>
      rw [hd] at h
      injection h with h₁ h₂
      exact Option.noConfusion h₂
    case ok c₁ =>
      rw [hd] at h
      cases hrest : dispatchEvent e cs with
      | mk cs₁ r =>
        rw [hrest] at h
        injection h with h₁ h₂
        subst h₂
        subst h₁
        exact List.Forall₂.cons hd (ih hrest)

theorem drainQueue_sent {es : List Value} :
    ∀ {cs cs' : List ClientHandler} (i : Nat) (hi : i < cs.length),
      drainQueue es cs = (cs', none) →
      ∃ hi' : i < cs'.length,
        (cs'.get ⟨i, hi'⟩).registration = (cs.get ⟨i, hi⟩).registration ∧
        (cs'.get ⟨i, hi'⟩).sent =
          (cs.get ⟨i, hi⟩).sent ++
            es.filter (fun e => (cs.get ⟨i, hi⟩).wouldDeliver e) := by
  induction es with
  | nil =>
    intro cs cs' i hi h
    unfold drainQueue at h
    injection h with h₁ h₂
    subst h₁
    exact ⟨hi, rfl, by simp⟩
  | cons e es ih =>
    intro cs cs' i hi h
    unfold drainQueue at h
    cases hde : dispatchEvent e cs with
    | mk cs₁ r =>
      rw [hde] at h
      cases r with
      | some err =>
        injection h with h₁ h₂
        exact Option.noConfusion h₂
      | none =>
        have hf := dispatchEvent_ok_forall₂ hde
        have hlen := hf.length_eq
        have hi₁ : i < cs₁.length := by omega
        have hpt := (List.forall₂_iff_get.mp hf).2 i hi hi₁
        obtain ⟨hreg, hbeh, hsent⟩ := dispatchToClient_ok hpt
        obtain ⟨hi', hreg', hsent'⟩ := ih i hi₁ h
        refine ⟨hi', ?_, ?_⟩
        · rw [hreg', hreg]
        · rw [hsent', hsent]
          have hfe : es.filter (fun x => (cs₁.get ⟨i, hi₁⟩).wouldDeliver x) =
              es.filter (fun x => (cs.get ⟨i, hi⟩).wouldDeliver x) :=
            List.filter_congr (fun x _ => wouldDeliver_congr hreg x)
          rw [hfe, List.filter_cons]
          cases hw : (cs.get ⟨i, hi⟩).wouldDeliver e <;> simp

/-! ### Claim theorems -/

/-- C1: for every drained event of kind update and every live connection
(with its registration present, holding a `for_types` list), the dispatch
loop sends the event to that connection if and only if the event's
`update_type` tag is a member of the connection's current subscription
set. -/
theorem C1_dispatch_iff (e ut msg : Value) (fts : List Value)
    (cs cs' : List ClientHandler) (i : Nat) (hi : i < cs.length)
    (hmt : pyGetItem e "msg_type" = Except.ok (Value.str "update"))
    (hut : pyGetItem e "update_type" = Except.ok ut)
    (hreg : (cs.get ⟨i, hi⟩).registration = some msg)
    (hft : pyGetItem msg "for_types" = Except.ok (Value.list fts))
    (hok : dispatchEvent e cs = (cs', none)) :
    ∃ hi' : i < cs'.length,
      ((cs'.get ⟨i, hi'⟩).sent = (cs.get ⟨i, hi⟩).sent ++ [e] ↔ ut ∈ fts) ∧
      ((cs'.get ⟨i, hi'⟩).sent = (cs.get ⟨i, hi⟩).sent ↔ ut ∉ fts) := by
  have hf := dispatchEvent_ok_forall₂ hok
  have hlen := hf.length_eq
  have hi' : i < cs'.length := by omega
  have hpt := (List.forall₂_iff_get.mp hf).2 i hi hi'
  obtain ⟨hreg', hbeh, hsent⟩ := dispatchToClient_ok hpt
  have hwd : (cs.get ⟨i, hi⟩).wouldDeliver e = decide (ut ∈ fts) := by
    unfold ClientHandler.wouldDeliver ClientHandler.subscMatches
    simp only [hmt, hut, hreg, hft, pyContains]
    simp
  by_cases hmem : ut ∈ fts
  · have hs : (cs'.get ⟨i, hi'⟩).sent = (cs.get ⟨i, hi⟩).sent ++ [e] := by
      rw [hsent, hwd]
      simp [hmem]
    refine ⟨hi', ⟨fun _ => hmem, fun _ => hs⟩, ⟨fun h => ?_, fun h => absurd hmem h⟩⟩
    rw [hs] at h
    have hl := congrArg List.length h
    simp at hl
  · have hs : (cs'.get ⟨i, hi'⟩).sent = (cs.get ⟨i, hi⟩).sent := by
      rw [hsent, hwd]
      simp [hmem]
    refine ⟨hi', ⟨fun h => ?_, fun h => absurd h hmem⟩, ⟨fun _ => hmem, fun _ => hs⟩⟩
    rw [hs] at h
    have hl := congrArg List.length h
    simp at hl

theorem C1_witness :
    ∃ hi' : 0 < [cAllAfter].length,
      (([cAllAfter].get ⟨0, hi'⟩).sent = cAll.sent ++ [updRegEvent] ↔
        Value.str "register" ∈ allTypes) ∧
      (([cAllAfter].get ⟨0, hi'⟩).sent = cAll.sent ↔
        Value.str "register" ∉ allTypes) := by
  have h := C1_dispatch_iff updRegEvent (Value.str "register") regMsgAll allTypes
      [cAll] [cAllAfter] 0 (by decide) rfl rfl rfl rfl rfl
  simpa using h

/-- C2 (code bug): a freshly accepted connection has no `registration`
attribute, so when an update event is drained the line-297 test raises
`AttributeError`, which propagates out of `ServerThread.run`: here the
fan-out aborts at the fresh client and the third, fully subscribed client
never receives the matching event. -/
theorem C2_fresh_connection_crash :
    dispatchEvent updRegEvent [cAll, ClientHandler.fresh, cAll] =
      ([{ cAll with sent := [updRegEvent] }, ClientHandler.fresh, cAll],
        some PyErr.attributeError) := by
  decide

/-- C3 (code bug): on a chunk that does not decode, `handle_read` logs the
error — and then evaluates `msg['msg_type']` with the local `msg` never
assigned, raising `UnboundLocalError` instead of dropping the chunk and
returning. -/
theorem C3_decode_failure_crash :
    ClientHandler.fresh.handle_read garbageChunk = .error PyErr.unboundLocal := by
  decide

/-- C4 counterexample: a `socket.error` raised while sending to the first
connection escapes `send_event` and the dispatch loop (`ServerThread.run`
has no handler), so the loop aborts and the second live, matching
connection is not sent the event (its `sent` trace stays that of `cAll`,
namely empty). -/
theorem C4_counterexample :
    dispatchEvent updRegEvent [cFatal, cAll] =
      ([cFatal, cAll], some PyErr.socketError) := by
  decide

/-- C4 (amended): an I/O error of the disconnect class (peer gone) raised
inside a send is absorbed by the socket dispatcher — the connection is
closed and `send` returns — so it is contained to that connection: the
dispatch of the event completes without an escaped exception and every
live connection still gets the event exactly when its subscription
matches.  (Any other `socket.error` raised out of a send aborts the loop,
as the counterexample shows.) -/
theorem C4_peer_gone_contained (e ut : Value) (cs : List ClientHandler)
    (hmt : pyGetItem e "msg_type" = Except.ok (Value.str "update"))
    (hut : pyGetItem e "update_type" = Except.ok ut)
    (hcs : ∀ c ∈ cs, c.sendBehavior ≠ SendOutcome.raisesError ∧
      (c.subscMatches ut = .ok true ∨ c.subscMatches ut = .ok false)) :
    ∃ cs', dispatchEvent e cs = (cs', none) ∧
      List.Forall₂
        (fun c c' => c'.sent = c.sent ++ (if c.wouldDeliver e then [e] else []))
        cs cs' := by
  induction cs with
  | nil => exact ⟨[], rfl, List.Forall₂.nil⟩
  | cons c cs ih =>
    obtain ⟨hbeh, hb⟩ := hcs c (by simp)
    have hone : ∃ c₁, dispatchToClient e c = .ok c₁ := by
      unfold dispatchToClient
      simp only [hmt, hut, if_true]
      rcases hb with hb | hb
      · simp only [hb, if_true]
        exact send_event_succeeds hbeh e
      · simp only [hb, Bool.false_eq_true, if_false]
        exact ⟨c, rfl⟩
    obtain ⟨c₁, hc₁⟩ := hone
    obtain ⟨cs₁, hcs₁, hfa⟩ := ih (fun u hu => hcs u (by simp [hu]))
    refine ⟨c₁ :: cs₁, ?_, ?_⟩
    · unfold dispatchEvent
      rw [hc₁, hcs₁]
    · exact List.Forall₂.cons (dispatchToClient_ok hc₁).2.2 hfa

theorem C4_witness :
    ∃ cs', dispatchEvent updRegEvent [cPeerGone, cAll] = (cs', none) ∧
      List.Forall₂
        (fun c c' => c'.sent = c.sent ++
          (if c.wouldDeliver updRegEvent then [updRegEvent] else []))
        [cPeerGone, cAll] cs' :=
  C4_peer_gone_contained updRegEvent (Value.str "register") [cPeerGone, cAll]
    rfl rfl (by decide)

theorem processRegisters_getLast? :
    ∀ (msgs : List Value) (c c' : ClientHandler),
      processRegisters c msgs = .ok c' →
      (msgs = [] ∧ c' = c) ∨
      (∃ m, msgs.getLast? = some m ∧ c'.registration = some m) := by
  intro msgs
  induction msgs with
  | nil =>
    intro c c' h
    unfold processRegisters at h
    injection h with h₁
    exact Or.inl ⟨rfl, h₁.symm⟩
  | cons m ms ih =>
    intro c c' h
    unfold processRegisters at h
    cases hhr : c.handle_register m with
    | error err =>
      rw [hhr] at h
      exact Except.noConfusion h
    | ok c₁ =>
      rw [hhr] at h
      have hreg₁ : c₁.registration = some m := by
        unfold ClientHandler.handle_register at hhr
        cases hft : pyGetItem m "for_types" with
        | error err =>
          rw [hft] at hhr
          exact Except.noConfusion hhr
        | ok ftv =>
          rw [hft] at hhr
          injection hhr with h₂
          subst h₂
          rfl
      rcases ih c₁ c' h with ⟨hms, hcc⟩ | ⟨m₂, hl, hr⟩
      · subst hms
        subst hcc
        exact Or.inr ⟨m, by simp, hreg₁⟩
      · refine Or.inr ⟨m₂, ?_, hr⟩
        cases ms with
        | nil => simp at hl
        | cons a as =>
          rw [List.getLast?_cons_cons]
          exact hl

/-- C5: after any nonempty sequence of register messages processed on one
connection, the stored registration is exactly the last message (each
register replaces the whole subscription, with no accumulation), and a tag
matches afterwards if and only if it is a member of that last message's
`for_types` set. -/
theorem C5_last_write_wins (c c' : ClientHandler) (msgs : List Value)
    (hne : msgs ≠ [])
    (hok : processRegisters c msgs = .ok c') :
    c'.registration = some (msgs.getLast hne) ∧
    ∀ (fts : List Value) (ut : Value),
      pyGetItem (msgs.getLast hne) "for_types" = Except.ok (Value.list fts) →
      c'.subscMatches ut = .ok (decide (ut ∈ fts)) := by
  rcases processRegisters_getLast? msgs c c' hok with ⟨hms, _⟩ | ⟨m, hl, hr⟩
  · exact absurd hms hne
  · have hlast : msgs.getLast hne = m := by
      have hq := List.getLast?_eq_getLast_of_ne_nil hne
      rw [hq] at hl
      injection hl with h₁
    constructor
    · rw [hlast]
      exact hr
    · intro fts ut hft
      rw [hlast] at hft
      unfold ClientHandler.subscMatches
      simp only [hr, hft, pyContains]

theorem C5_witness :
    cStack.registration = some regMsgStack ∧
    cStack.subscMatches (Value.str "register") = .ok false ∧
    cStack.subscMatches (Value.str "stack") = .ok true := by
  have h := C5_last_write_wins ClientHandler.fresh cStack
      [regMsgRegStack, regMsgStack] (by simp) (by decide)
  refine ⟨h.1, ?_, ?_⟩
  · exact h.2 [Value.str "stack"] (Value.str "register") rfl
  · exact h.2 [Value.str "stack"] (Value.str "stack") rfl

/-- C6: for every sequence of events drained from the FIFO queue by the
dispatch loop and every connection, the subsequence of those events sent to
that connection is exactly the matching ones, in the order they were
queued (FIFO per subscriber: each drained event is fully fanned out before
the next is taken). -/
theorem C6_fifo_per_connection (es : List Value) (cs cs' : List ClientHandler)
    (i : Nat) (hi : i < cs.length)
    (hok : drainQueue es cs = (cs', none)) :
    ∃ hi' : i < cs'.length,
      (cs'.get ⟨i, hi'⟩).sent =
        (cs.get ⟨i, hi⟩).sent ++
          es.filter (fun e => (cs.get ⟨i, hi⟩).wouldDeliver e) := by
  obtain ⟨hi', _, hsent⟩ := drainQueue_sent i hi hok
  exact ⟨hi', hsent⟩

theorem C6_witness :
    ∃ hi' : 0 < [cStackAfter].length,
      ([cStackAfter].get ⟨0, hi'⟩).sent =
        ([cStack].get ⟨0, Nat.one_pos⟩).sent ++
          [updRegEvent, updStackEvent, updDisasmEvent].filter
            (fun e => ([cStack].get ⟨0, Nat.one_pos⟩).wouldDeliver e) :=
  C6_fifo_per_connection [updRegEvent, updStackEvent, updDisasmEvent]
    [cStack] [cStackAfter] 0 Nat.one_pos (by decide)

/-- C8: `stop` while running sets the stop-requested flag, waits for the
loop thread only through a join bounded by the stated 10-second timeout
(never an unbounded join), uses no forced-kill primitive, and returns:
reporting the non-fatal "failed to stop" exactly when the thread is still
alive after the bounded join, and completing normally when it exited. -/
theorem C8_stop_bounded (s : VoltronCmdState) (alive : Bool)
    (h : s.running = true) :
    (VoltronCommand.stop s alive).1.thread.should_exit = true ∧
    (VoltronCommand.stop s alive).1.running = false ∧
    (VoltronCommand.stop s alive).2.2.setShouldExitCalls = [true] ∧
    (VoltronCommand.stop s alive).2.2.joinTimeouts = [some 10] ∧
    (VoltronCommand.stop s alive).2.2.forcedKill = false ∧
    (VoltronCommand.stop s alive).2.1 =
      (if alive then StopReport.failedToStop else StopReport.stoppedClean) := by
  unfold VoltronCommand.stop
  simp [h, ServerThreadState.should_exit, ServerThreadState.set_should_exit]

theorem C8_witness :
    (VoltronCommand.stop ⟨true, ⟨false⟩⟩ true).1.thread.should_exit = true ∧
    (VoltronCommand.stop ⟨true, ⟨false⟩⟩ true).1.running = false ∧
    (VoltronCommand.stop ⟨true, ⟨false⟩⟩ true).2.2.setShouldExitCalls = [true] ∧
    (VoltronCommand.stop ⟨true, ⟨false⟩⟩ true).2.2.joinTimeouts = [some 10] ∧
    (VoltronCommand.stop ⟨true, ⟨false⟩⟩ true).2.2.forcedKill = false ∧
    (VoltronCommand.stop ⟨true, ⟨false⟩⟩ true).2.1 =
      (if true then StopReport.failedToStop else StopReport.stoppedClean) :=
  C8_stop_bounded ⟨true, ⟨false⟩⟩ true rfl

/-- C9 counterexample: the single read-size constant is `0xFFFF = 65535`,
not the claimed 65536 bytes (64 KiB). -/
theorem C9_counterexample : READ_MAX ≠ 65536 := by decide

/-- C9 (amended): every socket read on either side requests at most
`READ_MAX = 65535` bytes (0xFFFF, one byte short of 64 KiB) per call — the
received chunk is never longer than that, and both read handlers depend
only on the first `READ_MAX` bytes of the pending data. -/
theorem C9_read_cap :
    READ_MAX = 65535 ∧
    (∀ pending : List Nat, (pyRecv READ_MAX pending).length ≤ READ_MAX) ∧
    (∀ (c : ClientHandler) (pending : List Nat),
      c.handle_read pending = c.handle_read (pending.take READ_MAX)) ∧
    (∀ (hasView : Bool) (pending : List Nat),
      Client.handle_read hasView pending =
        Client.handle_read hasView (pending.take READ_MAX)) := by
  refine ⟨rfl, ?_, ?_, ?_⟩
  · intro pending
    exact List.length_take_le READ_MAX pending
  · intro c pending
    unfold ClientHandler.handle_read
    simp [pyRecv, List.take_take]
  · intro hasView pending
    unfold Client.handle_read
    simp [pyRecv, List.take_take]

/-- C10: a drained event whose `msg_type` is not `update` is removed from
the queue but sent to no connection and leaves every connection unchanged;
processing it is a no-op for the rest of the drain. -/
theorem C10_non_update_dropped (e mt : Value) (es : List Value)
    (cs : List ClientHandler)
    (hmt : pyGetItem e "msg_type" = Except.ok mt)
    (hne : mt ≠ Value.str "update") :
    dispatchEvent e cs = (cs, none) ∧
    drainQueue (e :: es) cs = drainQueue es cs := by
  have hd : ∀ cs₀ : List ClientHandler, dispatchEvent e cs₀ = (cs₀, none) := by
    intro cs₀
    induction cs₀ with
    | nil => rfl
    | cons c cs₀ ih =>
      unfold dispatchEvent
      have h1 : dispatchToClient e c = .ok c := by
        unfold dispatchToClient
        simp only [hmt]
        rw [if_neg hne]
      rw [h1, ih]
  refine ⟨hd cs, ?_⟩
  have hu : drainQueue (e :: es) cs =
      (match dispatchEvent e cs with
        | (cs₁, some err) => (cs₁, some err)
        | (cs₁, none) => drainQueue es cs₁) := rfl
  rw [hu, hd cs]

theorem C10_witness :
    dispatchEvent syncEvent [cAll, cStack] = ([cAll, cStack], none) ∧
    drainQueue [syncEvent, updStackEvent] [cAll, cStack] =
      drainQueue [updStackEvent] [cAll, cStack] :=
  C10_non_update_dropped syncEvent (Value.str "sync") [updStackEvent]
    [cAll, cStack] rfl (by decide)
